import Mathlib

/-!
Verification of the venue-resolution and keyword-scoring core of the
arXiv paper quality filter (`arXiv-Paper-Quality-Filter.py`).

The Python source is shallowly embedded: strings are `String`/`List Char`,
Python dicts (which preserve insertion order) are association lists updated
in place, and every regular expression that the source builds is
transliterated into a small reusable backtracking pattern engine (`RE`,
`Pat`) whose alternation is ordered left-first and whose repetitions are
greedy, matching Python's `re` semantics for the pattern features the
source uses (literals, single-character classes, `\b`, `?`, `*`, `+`,
`{n}`, `{n,}`, ordered alternation, one capture group).
-/

/-- Python `\s` / `str.strip()` whitespace restricted to ASCII: space, tab,
newline, carriage return, vertical tab, form feed. -/
def pyWs (c : Char) : Bool :=
  c.isWhitespace || c == '\x0b' || c == '\x0c'

/-- Python `\w` word character (ASCII fragment): letters, digits, underscore. -/
def wordChar (c : Char) : Bool :=
  c.isAlphanum || c == '_'

/-- Lowercasing of a character sequence (Python `str.lower()` on ASCII). -/
def lowerL (l : List Char) : List Char :=
  l.map Char.toLower

/-- Python slice `t[a:b]` on a character list (indices clamped like Python). -/
def sliceL (t : List Char) (a b : Nat) : List Char :=
  (t.take b).drop a

/-- Python `str.strip()`: drop whitespace at both ends. -/
def pyStripL (l : List Char) : List Char :=
  ((l.dropWhile pyWs).reverse.dropWhile pyWs).reverse

/-- Python `str.strip()` on `String`. -/
def pyStrip (s : String) : String :=
  String.mk (pyStripL s.data)

/-- Does the needle occur at position `p` of the haystack? -/
def subAt (t s : List Char) (p : Nat) : Bool :=
  s.isPrefixOf (t.drop p)

/-- Python substring containment `sub in hay`. -/
def listContains (hay sub : List Char) : Bool :=
  (List.range (hay.length + 1)).any (fun i => subAt hay sub i)

/-- Python `str.find`: index of the first occurrence, if any. -/
def firstIdx (hay sub : List Char) : Option Nat :=
  (List.range (hay.length + 1)).find? (fun i => subAt hay sub i)

/-- Python `str.endswith` on character lists. -/
def endsWithL (l s : List Char) : Bool :=
  s.isSuffixOf l

/-- Python `str.startswith`. -/
def pyStartsWith (s pre : String) : Bool :=
  pre.data.isPrefixOf s.data

/-- Python `str.isupper()` (ASCII fragment): at least one letter and no
lowercase letter. -/
def pyIsUpper (s : String) : Bool :=
  s.data.any (fun c => c.isAlpha) && s.data.all (fun c => !(c.isLower))

/-- Python `str.isdigit()` (ASCII fragment). -/
def pyIsDigit (s : String) : Bool :=
  !s.data.isEmpty && s.data.all (fun c => c.isDigit)

/-- Is there a word character at index `i` (out of range counts as none)? -/
def wordAt (t : List Char) (i : Nat) : Bool :=
  match t.get? i with
  | some c => wordChar c
  | none => false

/-- Regex `\b`: a word boundary sits at gap `i` iff exactly one side is a
word character. -/
def boundaryAt (t : List Char) (i : Nat) : Bool :=
  (decide (i ≠ 0) && wordAt t (i - 1)) != wordAt t i

/-- Length of the maximal run of characters satisfying `p`. -/
def countWhile (p : Char → Bool) : List Char → Nat
  | [] => 0
  | c :: cs => if p c then countWhile p cs + 1 else 0

/-- Try `f` on `lo + e`, `lo + e - 1`, …, `lo`, returning the first success:
the backtracking order of a greedy repetition. -/
def tryDown (f : Nat → Option α) (lo : Nat) : Nat → Option α
  | 0 => f lo
  | e + 1 => (f (lo + e + 1)).orElse (fun _ => tryDown f lo e)

/-- Abstract syntax of the regex fragment used by the source: literals,
single-character classes, ordered alternation, greedy option and
class repetitions, and word boundaries. -/
inductive RE where
  | eps : RE
  | chr (p : Char → Bool) : RE
  | lit (s : List Char) : RE
  | cat (a b : RE) : RE
  | alt (a b : RE) : RE
  | opt (a : RE) : RE
  | star (p : Char → Bool) : RE
  | plus (p : Char → Bool) : RE
  | rep (p : Char → Bool) (min : Nat) : RE
  | exactN (p : Char → Bool) (n : Nat) : RE
  | bound : RE

/-- Backtracking matcher in continuation-passing style.  `mRE r t i k`
matches `r` at position `i` of `t` and passes the end position to `k`;
alternation is left-first and repetition greedy (longest first), exactly
Python's `re` strategy for these constructs. -/
def mRE : RE → List Char → Nat → (Nat → Option α) → Option α
  | .eps, _, i, k => k i
  | .chr p, t, i, k =>
    match t.get? i with
    | some c => if p c then k (i + 1) else none
    | none => none
  | .lit s, t, i, k => if subAt t s i then k (i + s.length) else none
  | .cat a b, t, i, k => mRE a t i (fun j => mRE b t j k)
  | .alt a b, t, i, k => (mRE a t i k).orElse (fun _ => mRE b t i k)
  | .opt a, t, i, k => (mRE a t i k).orElse (fun _ => k i)
  | .star p, t, i, k => tryDown (fun j => k (i + j)) 0 (countWhile p (t.drop i))
  | .plus p, t, i, k =>
    let r := countWhile p (t.drop i)
    if r = 0 then none else tryDown (fun j => k (i + j)) 1 (r - 1)
  | .rep p m, t, i, k =>
    let r := countWhile p (t.drop i)
    if r < m then none else tryDown (fun j => k (i + j)) m (r - m)
  | .exactN p n, t, i, k =>
    if n ≤ countWhile p (t.drop i) then k (i + n) else none
  | .bound, t, i, k => if boundaryAt t i then k i else none

/-- Does `r` match starting exactly at position `s`? -/
def mTest (r : RE) (t : List Char) (s : Nat) : Bool :=
  (mRE r t s (fun _ => some ())).isSome

/-- Boolean `re.search`: does `r` match anywhere in `t`? -/
def reTest (r : RE) (t : List Char) : Bool :=
  (List.range (t.length + 1)).any (fun s => mTest r t s)

/-- A pattern with a single capture group: a prefix part, the group, and a
suffix part. -/
structure Pat where
  pre : RE
  grp : RE
  post : RE

/-- Match the pattern at position `s`, returning group start, group end and
whole-match end. -/
def matchPatAt (P : Pat) (t : List Char) (s : Nat) : Option (Nat × Nat × Nat) :=
  mRE P.pre t s (fun g => mRE P.grp t g (fun e => mRE P.post t e (fun w => some (g, e, w))))

/-- Scan for the leftmost match at position `s` or later (`re.search`);
returns match start, group start, group end and whole-match end. -/
def searchPatAux (P : Pat) (t : List Char) : Nat → Nat → Option (Nat × Nat × Nat × Nat)
  | _, 0 => none
  | s, fuel + 1 =>
    match matchPatAt P t s with
    | some (g, e, w) => some (s, g, e, w)
    | none => searchPatAux P t (s + 1) fuel

/-- Leftmost match of `P` in `t` at position `s` or later. -/
def searchPatFrom (P : Pat) (t : List Char) (s : Nat) : Option (Nat × Nat × Nat × Nat) :=
  searchPatAux P t s (t.length + 1 - s)

/-- Leftmost match of `P` in `t` (`re.search`). -/
def searchPat (P : Pat) (t : List Char) : Option (Nat × Nat × Nat × Nat) :=
  searchPatFrom P t 0

/-- Successive non-overlapping matches (`re.finditer`), as group spans. -/
def finditerAux (P : Pat) (t : List Char) : Nat → Nat → List (Nat × Nat)
  | _, 0 => []
  | s, fuel + 1 =>
    match searchPatFrom P t s with
    | none => []
    | some (s0, g, e, w) =>
      (g, e) :: finditerAux P t (if s0 < w then w else s0 + 1) fuel

/-- All group spans of `re.finditer(P, t)` in order. -/
def finditer (P : Pat) (t : List Char) : List (Nat × Nat) :=
  finditerAux P t 0 (t.length + 2)

/-! ### Character classes used by the source's patterns -/

/-- Class `[^,.()]` of the venue-capturing groups. -/
def notSpecP (c : Char) : Bool :=
  !(c == ',' || c == '.' || c == '(' || c == ')')

/-- Class `[^(]` of the parenthesized-abbreviation pattern. -/
def notOpenParenP (c : Char) : Bool :=
  !(c == '(')

/-- Opening bracket class `[({\[]` of the Tier-2 short-name pattern. -/
def openBrP (c : Char) : Bool :=
  c == '(' || c == '{' || c == '['

/-- Closing bracket class `[)}\]]` of the Tier-2 short-name pattern. -/
def closeBrP (c : Char) : Bool :=
  c == ')' || c == '}' || c == ']'

/-- Dash class `[-–—]` of the parenthesized-abbreviation pattern. -/
def dashP (c : Char) : Bool :=
  c == '-' || c == '–' || c == '—'

/-- Optional `(?:the\s+)?` fragment shared by the phrase patterns. -/
def theOpt : RE :=
  .opt (.cat (.lit "the".data) (.plus pyWs))

/-- Prefix `[Aa]ccepted\s+(?:at|in|to|for)\s+(?:the\s+)?`. -/
def acceptedAtPre : RE :=
  .cat (.chr (fun c => c == 'A' || c == 'a'))
    (.cat (.lit "ccepted".data)
      (.cat (.plus pyWs)
        (.cat (.alt (.lit "at".data) (.alt (.lit "in".data) (.alt (.lit "to".data) (.lit "for".data))))
          (.cat (.plus pyWs) theOpt))))

/-- Prefix `[Aa]ccepted\s+(?:by|for)\s+(?:the\s+)?`. -/
def acceptedByPre : RE :=
  .cat (.chr (fun c => c == 'A' || c == 'a'))
    (.cat (.lit "ccepted".data)
      (.cat (.plus pyWs)
        (.cat (.alt (.lit "by".data) (.lit "for".data))
          (.cat (.plus pyWs) theOpt))))

/-- Prefix `[Pp]ublished\s+in\s+(?:the\s+)?`. -/
def publishedInPre : RE :=
  .cat (.chr (fun c => c == 'P' || c == 'p'))
    (.cat (.lit "ublished".data)
      (.cat (.plus pyWs)
        (.cat (.lit "in".data) (.cat (.plus pyWs) theOpt))))

/-- Prefix `[Tt]o\s+appear\s+in\s+(?:the\s+)?`. -/
def toAppearInPre : RE :=
  .cat (.chr (fun c => c == 'T' || c == 't'))
    (.cat (.lit "o".data)
      (.cat (.plus pyWs)
        (.cat (.lit "appear".data)
          (.cat (.plus pyWs)
            (.cat (.lit "in".data) (.cat (.plus pyWs) theOpt))))))

/-- Prefix `[Tt]o\s+be\s+published\s+in\s+(?:the\s+)?`. -/
def toBePublishedInPre : RE :=
  .cat (.chr (fun c => c == 'T' || c == 't'))
    (.cat (.lit "o".data)
      (.cat (.plus pyWs)
        (.cat (.lit "be".data)
          (.cat (.plus pyWs)
            (.cat (.lit "published".data)
              (.cat (.plus pyWs)
                (.cat (.lit "in".data) (.cat (.plus pyWs) theOpt))))))))

/-- The four phrase prefixes of `is_exact_match`'s `accepted_patterns`. -/
def phrasePres : List RE :=
  [acceptedAtPre, acceptedByPre, publishedInPre, toAppearInPre]

/-- Group `([^,.()]*JN[^,.()]*)` of `accepted_patterns`, built around the
escaped journal name. -/
def nameGroup (jn : String) : RE :=
  .cat (.star notSpecP) (.cat (.lit jn.data) (.star notSpecP))

/-- The four `accepted_patterns` of `is_exact_match` for a journal name. -/
def acceptedPatsFor (jn : String) : List Pat :=
  phrasePres.map (fun pre => ⟨pre, nameGroup jn, .eps⟩)

/-- The nine candidate-extraction patterns of `extract_conference_name`,
in source order. -/
def extractPats : List Pat :=
  [⟨acceptedAtPre, .plus notSpecP, .eps⟩,
   ⟨acceptedByPre, .plus notSpecP, .eps⟩,
   ⟨publishedInPre, .plus notSpecP, .eps⟩,
   ⟨toAppearInPre, .plus notSpecP, .eps⟩,
   ⟨toBePublishedInPre, .plus notSpecP, .eps⟩,
   ⟨.cat (.plus notOpenParenP) (.cat (.star pyWs) (.lit "(".data)),
    .cat (.rep Char.isUpper 2)
      (.opt (.cat (.star pyWs) (.cat (.opt (.chr dashP)) (.cat (.star pyWs) (.star Char.isDigit))))),
    .lit ")".data⟩,
   ⟨.bound, .cat (.rep Char.isUpper 3) (.opt (.cat (.star pyWs) (.exactN Char.isDigit 4))), .bound⟩,
   ⟨.bound, .cat (.rep Char.isUpper 2) (.exactN Char.isDigit 4), .bound⟩,
   ⟨.bound, .rep Char.isUpper 2, .cat (.plus pyWs) (.cat (.exactN Char.isDigit 4) .bound)⟩]

/-! ### Static tables of the source -/

/-- The `CONFERENCE_MAPPINGS` dict, in insertion order. -/
def CONFERENCE_MAPPINGS : List (String × String) :=
  [("IJCNN", "International Joint Conference on Neural Networks"),
   ("NAACL", "Annual Meeting of the North American Chapter of the Association for Computational Linguistics"),
   ("ACL", "Annual Meeting of the Association for Computational Linguistics"),
   ("ICCV", "International Conference on Computer Vision"),
   ("CVPR", "IEEE/CVF Conference on Computer Vision and Pattern Recognition"),
   ("EMNLP", "Conference on Empirical Methods in Natural Language Processing"),
   ("ICML", "International Conference on Machine Learning"),
   ("NeurIPS", "Annual Conference on Neural Information Processing Systems"),
   ("AICCSA", "ACS/IEEE International Conference on Computer Systems and Applications")]

/-- The `ccf_a_conferences` list. -/
def ccf_a_conferences : List String :=
  ["International Conference on Computer Vision",
   "IEEE/CVF Conference on Computer Vision and Pattern Recognition",
   "Annual Conference on Neural Information Processing Systems",
   "International Conference on Machine Learning",
   "Annual Meeting of the Association for Computational Linguistics"]

/-- The `ccf_b_conferences` list. -/
def ccf_b_conferences : List String :=
  ["Conference on Empirical Methods in Natural Language Processing",
   "Annual Meeting of the North American Chapter of the Association for Computational Linguistics"]

/-- The `ccf_c_conferences` list. -/
def ccf_c_conferences : List String :=
  ["International Joint Conference on Neural Networks"]

/-- The `special_journals` list. -/
def special_journals : List String :=
  ["Artificial Intelligence", "Neural Networks", "AI"]

/-- The prefix fragments checked by the special-journal guard. -/
def prefixes : List String :=
  ["Conference on", "Journal of", "Symposium on", "Workshop on"]

/-- The `conference_indicators` list of the ordinary-venue standalone-word
check. -/
def conference_indicators : List String :=
  ["conference on", "symposium on", "workshop on",
   "international", "journal of", "transactions on"]

/-! ### Insertion-ordered association lists (Python dicts) -/

/-- Lookup in an insertion-ordered association list (`d[k]` / `d.get(k)`). -/
def afind? : List (String × α) → String → Option α
  | [], _ => none
  | p :: rest, k => if p.1 = k then some p.2 else afind? rest k

/-- Python dict membership `k in d`. -/
def acontains (m : List (String × α)) (k : String) : Bool :=
  (afind? m k).isSome

/-- Python dict assignment `d[k] = v`: replace in place if the key exists,
otherwise append (insertion order preserved). -/
def aset : List (String × α) → String → α → List (String × α)
  | [], k, v => [(k, v)]
  | p :: rest, k, v => if p.1 = k then (k, v) :: rest else p :: aset rest k v

/-! ### Catalog construction (`first_analysis`'s lookup tables) -/

/-- One raw reference row: `Journal Name`, `Full Name of the Journal`, and
optional `Type` / `Level` cells (`none` models an absent column or NaN). -/
structure RefRow where
  journalName : String
  fullName : String
  rowType : Option String
  rowLevel : Option String
deriving DecidableEq, Repr

/-- The four lookup dicts that `first_analysis` builds. -/
structure Catalog where
  journal_fullnames : List (String × String)
  journal_categories : List (String × String)
  journal_types : List (String × String)
  journal_levels : List (String × String)
deriving DecidableEq, Repr

/-- The empty catalog. -/
def emptyCatalog : Catalog :=
  ⟨[], [], [], []⟩

/-- Ingest one reference row (the body of the DataFrame loop): names are
stripped, `Type` defaults to `"Unknown"`, and `Level` is kept only when its
stripped value is exactly `A`, `B` or `C`. -/
def ingestRow (c : Catalog) (r : RefRow) : Catalog :=
  let short_name := pyStrip r.journalName
  let full_name := pyStrip r.fullName
  let journal_type := match r.rowType with
    | some ty => pyStrip ty
    | none => "Unknown"
  let journal_level := match r.rowLevel with
    | some lv => if ["A", "B", "C"].contains (pyStrip lv) then pyStrip lv else ""
    | none => ""
  { journal_fullnames := aset c.journal_fullnames short_name full_name,
    journal_categories := aset c.journal_categories full_name full_name,
    journal_types := aset c.journal_types full_name journal_type,
    journal_levels := aset c.journal_levels full_name journal_level }

/-- Ingest the reference rows, skipping the first (header/label) row. -/
def ingestRows (rows : List RefRow) : Catalog :=
  match rows with
  | [] => emptyCatalog
  | _ :: rest => rest.foldl ingestRow emptyCatalog

/-- The CCF level statically assigned to a conference full name (the body of
the `default_conference_levels` loop). -/
def levelFor (conf_name : String) : String :=
  if ccf_a_conferences.contains conf_name then "A"
  else if ccf_b_conferences.contains conf_name then "B"
  else if ccf_c_conferences.contains conf_name then "C"
  else ""

/-- The `default_conference_types` dict: every static conference maps to
`"Conference"`. -/
def default_conference_types : List (String × String) :=
  (CONFERENCE_MAPPINGS.map Prod.snd).foldl (fun m cn => aset m cn "Conference") []

/-- The `default_conference_levels` dict. -/
def default_conference_levels : List (String × String) :=
  (CONFERENCE_MAPPINGS.map Prod.snd).foldl (fun m cn => aset m cn (levelFor cn)) []

/-- One step of merging the static abbreviation table into the catalog:
a pair is added only when its full name is not yet a category key, and its
abbreviation only when not yet a short-name key. -/
def mergeStep (c : Catalog) (p : String × String) : Catalog :=
  if acontains c.journal_categories p.2 then c
  else
    { journal_categories := aset c.journal_categories p.2 p.2,
      journal_types :=
        aset c.journal_types p.2 ((afind? default_conference_types p.2).getD "Conference"),
      journal_levels :=
        aset c.journal_levels p.2 ((afind? default_conference_levels p.2).getD ""),
      journal_fullnames :=
        if acontains c.journal_fullnames p.1 then c.journal_fullnames
        else aset c.journal_fullnames p.1 p.2 }

/-- Merge the whole static abbreviation table. -/
def mergeStatic (c : Catalog) : Catalog :=
  CONFERENCE_MAPPINGS.foldl mergeStep c

/-- Full catalog construction: ingest reference rows, then merge the static
conference table. -/
def buildCatalog (rows : List RefRow) : Catalog :=
  mergeStatic (ingestRows rows)

/-! ### The `is_exact_match` helper of `first_analysis` -/

/-- Position `p` is a group-1 match of the special-journal pattern
`(?:^|\W)(JN)(?:\W|$)`: the name occurs at `p`, the previous character (if
any) is a non-word character, and the following one (if any) as well. -/
def specialOkAt (t jn : List Char) (p : Nat) : Bool :=
  subAt t jn p && (decide (p = 0) || !wordAt t (p - 1)) && !wordAt t (p + jn.length)

/-- Start of the first (leftmost) special-journal match, the span that
`re.search` reports. -/
def specialSearch (t jn : List Char) : Option Nat :=
  (List.range (t.length + 1)).find? (fun p => specialOkAt t jn p)

/-- The special-journal prefix guard: does the stripped window of
`len(prefix) + 5` characters before the match end with one of the phrase
fragments (`Conference on`, `Journal of`, `Symposium on`, `Workshop on`)? -/
def specialPreceded (t : List Char) (start : Nat) : Bool :=
  prefixes.any (fun pre =>
    endsWithL (pyStripL (sliceL t (start - (pre.length + 5)) start)) pre.data)

/-- Case-insensitive standalone-word search `re.search(r'\b'+JN+r'\b', hay,
re.IGNORECASE)`. -/
def wbTestCI (hay jn : List Char) : Bool :=
  reTest (.cat .bound (.cat (.lit (lowerL jn)) .bound)) (lowerL hay)

/-- Check of one `accepted_patterns` entry: search case-sensitively, strip
group 1, and accept when it equals the journal name case-insensitively or
contains it as a standalone word. -/
def acceptedGroupCheck (t : List Char) (jn : String) (P : Pat) : Bool :=
  match searchPat P t with
  | some (_, g, e, _) =>
    let matched_text := pyStripL (sliceL t g e)
    (lowerL matched_text == lowerL jn.data) || wbTestCI matched_text jn.data
  | none => false

/-- The `JN\s*\([A-Z]+\)` search with `re.IGNORECASE` (lowering makes the
class `[A-Z]` match any ASCII letter). -/
def abbrParenTest (t : List Char) (jn : String) : Bool :=
  reTest
    (.cat (.lit (lowerL jn.data))
      (.cat (.star pyWs) (.cat (.lit "(".data) (.cat (.plus Char.isAlpha) (.lit ")".data)))))
    (lowerL t)

/-- The conference-indicator guard of the ordinary standalone-word branch:
the 50 characters of lowered text before the first occurrence of the
lowered name, stripped, end with one of the indicators. -/
def precededByIndicator (t : List Char) (jn : String) : Bool :=
  let surrounding_text := lowerL t
  let journal_pos := (firstIdx surrounding_text (lowerL jn.data)).getD 0
  conference_indicators.any (fun ind =>
    endsWithL (pyStripL (sliceL surrounding_text (journal_pos - 50) journal_pos)) ind.data)

/-- The source's `is_exact_match(text, journal_name)`. -/
def is_exact_match (text journal_name : String) : Bool :=
  let t := text.data
  if special_journals.contains journal_name then
    match specialSearch t journal_name.data with
    | some start => if specialPreceded t start then false else true
    | none => false
  else if listContains (lowerL t) (lowerL journal_name.data) then
    if (acceptedPatsFor journal_name).any (fun P => acceptedGroupCheck t journal_name P) then
      true
    else if abbrParenTest t journal_name then true
    else if wbTestCI t journal_name.data then
      if precededByIndicator t journal_name then false else true
    else false
  else false

/-! ### The `extract_conference_name` helper -/

/-- The source's `extract_conference_name(text)`: run the nine patterns in
order, collect every stripped group-1 capture, and keep those that are
non-empty, longer than two characters, and not purely numeric. -/
def extract_conference_name (text : String) : List String :=
  let t := text.data
  ((extractPats.map (fun P => finditer P t)).flatten.map
      (fun ge => String.mk (pyStripL (sliceL t ge.1 ge.2)))).filter
    (fun conf_name => conf_name != "" && conf_name.length > 2 && !pyIsDigit conf_name)

/-! ### The three resolution tiers of `first_analysis` -/

/-- Tier 1: the first full name (in catalog insertion order) passing
`is_exact_match`. -/
def tier1 (cat : Catalog) (subject : String) : Option String :=
  (cat.journal_categories.map Prod.fst).find? (fun full_name => is_exact_match subject full_name)

/-- Tier-2 standalone-abbreviation search `[({\[]?\bSN\b[)}\]]?`
(case-sensitive). -/
def shortWordTest (subject short : String) : Bool :=
  reTest
    (.cat (.opt (.chr openBrP)) (.cat .bound (.cat (.lit short.data) (.cat .bound (.opt (.chr closeBrP))))))
    subject.data

/-- Tier-2 abbreviation-with-year search `\bSN\d{4}\b` (case-sensitive). -/
def shortYearTest (subject short : String) : Bool :=
  reTest (.cat .bound (.cat (.lit short.data) (.cat (.exactN Char.isDigit 4) .bound))) subject.data

/-- Tier 2: the first all-uppercase short name contained in the text that
passes the standalone-word or abbreviation-with-year test; returns the full
name and the match-type tag. -/
def tier2 (cat : Catalog) (subject : String) : Option (String × String) :=
  cat.journal_fullnames.findSome? (fun p =>
    if pyIsUpper p.1 && listContains subject.data p.1.data then
      if shortWordTest subject p.1 then some (p.2, "Exact Short Name")
      else if shortYearTest subject p.1 then some (p.2, "Short Name with Year")
      else none
    else none)

/-- The Tier-3 abbreviation condition: the candidate contains the
abbreviation as a standalone word or abbreviation-plus-year
(case-insensitively), or starts with it (case-sensitively). -/
def abbrCondition (conf_name abbr : String) : Bool :=
  wbTestCI conf_name.data abbr.data ||
    reTest (.cat .bound (.cat (.lit (lowerL abbr.data)) (.cat (.exactN Char.isDigit 4) .bound)))
      (lowerL conf_name.data) ||
    pyStartsWith conf_name abbr

/-- Tier 3: extract candidates and match each against the static table —
first by exact key, then by the abbreviation condition. -/
def tier3 (subject : String) : Option (String × String) :=
  (extract_conference_name subject).findSome? (fun conf_name =>
    match afind? CONFERENCE_MAPPINGS conf_name with
    | some full => some (full, "Conference Name Match")
    | none =>
      CONFERENCE_MAPPINGS.findSome? (fun p =>
        if abbrCondition conf_name p.1 then some (p.2, "Conference Abbr Match") else none))

/-! ### Per-row resolution and the analyses -/

/-- One output record of `first_analysis`. -/
structure MatchRec where
  Title : String
  Subject : String
  URL : String
  Publication : String
  Publication_Type : String
  Publication_Level : String
  Match_Type : String
deriving DecidableEq, Repr

/-- Resolution of one raw paper row (cells by position, missing cells
defaulting to `""`): eligibility requires the literal substring
`"Comments"`, then the three tiers run in order; type and level are looked
up with defaults `"Unknown"` and `""`. -/
def resolveRow (cat : Catalog) (row : List String) : Option MatchRec :=
  let title := row.getD 0 ""
  let subject := row.getD 2 ""
  let url := row.getD 3 ""
  if listContains subject.data "Comments".data then
    match
      (match tier1 cat subject with
       | some full_name => some (full_name, "Exact Full Name")
       | none =>
         match tier2 cat subject with
         | some r => some r
         | none => tier3 subject) with
    | some (pub, mt) =>
      some ⟨title, subject, url, pub, (afind? cat.journal_types pub).getD "Unknown",
        (afind? cat.journal_levels pub).getD "", mt⟩
    | none => none
  else none

/-- The source's `first_analysis`: resolve every paper row against the
catalog built from the reference rows, keeping only matched records. -/
def first_analysis (df : List (List String)) (rows : List RefRow) : List MatchRec :=
  df.filterMap (fun row => resolveRow (buildCatalog rows) row)

/-- A match record enriched with the `Keywords_Hit` column. -/
structure ScoredRec extends MatchRec where
  Keywords_Hit : String
deriving DecidableEq, Repr

/-- The keyword hits of one record: the venue's keywords that occur in the
title as a standalone word, case-insensitively, in list order (empty when
the venue has no keyword entry). -/
def keywordHits (keywords : List (String × List String)) (pub title : String) : List String :=
  match afind? keywords pub with
  | none => []
  | some keyword_list => keyword_list.filter (fun kw => wbTestCI title.data kw.data)

/-- Scoring of one record (the body of `second_analysis`'s loop): the
`Keywords_Hit` cell stays `""` unless some keyword hits, in which case the
hits are comma-joined. -/
def scoreRec (keywords : List (String × List String)) (r : MatchRec) : ScoredRec :=
  let hits := keywordHits keywords r.Publication r.Title
  { toMatchRec := r,
    Keywords_Hit := if hits.isEmpty then "" else String.intercalate ", " hits }

/-- The source's `second_analysis` over the collected records. -/
def second_analysis (keywords : List (String × List String)) (rs : List MatchRec) : List ScoredRec :=
  rs.map (scoreRec keywords)

/-- Formalization of the hypothesis of the special-venue guard claim: every
group-1 match position of the special pattern for `jn` in `text` triggers
the prefix guard (the name never stands alone outside a larger venue
title). -/
def allSpecialOccurrencesPreceded (text jn : String) : Bool :=
  (List.range (text.data.length + 1)).all
    (fun p => !specialOkAt text.data jn.data p || specialPreceded text.data p)

/-! ### Association-list lemmas -/

theorem afind?_aset_self (m : List (String × α)) (k : String) (v : α) :
    afind? (aset m k v) k = some v := by
  induction m with
  | nil => simp [aset, afind?]
  | cons p rest ih =>
    by_cases h : p.1 = k <;> simp [aset, afind?, h, ih]

theorem afind?_aset_ne (m : List (String × α)) (k : String) (v : α) (j : String)
    (hne : j ≠ k) : afind? (aset m k v) j = afind? m j := by
  have hkj : ¬k = j := fun hh => hne hh.symm
  induction m with
  | nil => simp [aset, afind?, hkj]
  | cons p rest ih =>
    by_cases h : p.1 = k
    · simp [aset, afind?, h, hkj]
    · simp [aset, afind?, h, ih]

theorem acontains_aset (m : List (String × α)) (k : String) (v : α) (j : String) :
    acontains (aset m k v) j = (decide (j = k) || acontains m j) := by
  by_cases h : j = k
  · simp [acontains, h, afind?_aset_self]
  · simp [acontains, h, afind?_aset_ne m k v j h]

theorem exists_of_afind?_getD (m : List (String × α)) (k : String)
    (h : acontains m k = true) : afind? m k = some ((afind? m k).getD d) := by
  unfold acontains at h
  cases hf : afind? m k with
  | none => rw [hf] at h; simp at h
  | some v => simp

theorem exists_of_findSome?_eq_some {l : List α} {f : α → Option β} {b : β}
    (h : l.findSome? f = some b) : ∃ a ∈ l, f a = some b := by
  induction l with
  | nil => simp [List.findSome?] at h
  | cons x xs ih =>
    rw [List.findSome?_cons] at h
    cases hx : f x with
    | some v =>
      rw [hx] at h
      exact ⟨x, by simp, by rw [hx]; exact h⟩
    | none =>
      rw [hx] at h
      obtain ⟨a, ha, hfa⟩ := ih h
      exact ⟨a, by simp [ha], hfa⟩

theorem find?_isSome_of_any {l : List α} {p : α → Bool} (h : l.any p = true) :
    ∃ a, l.find? p = some a := by
  rw [List.any_eq_true] at h
  obtain ⟨x, hx, hpx⟩ := h
  cases hf : l.find? p with
  | some a => exact ⟨a, rfl⟩
  | none => exact absurd hpx (by simpa using List.find?_eq_none.mp hf x hx)

/-! ### Preservation of reference-row entries by the static merge -/

theorem mergeStep_preserve (c : Catalog) (p : String × String) (k : String)
    (hk : acontains c.journal_categories k = true) :
    acontains (mergeStep c p).journal_categories k = true ∧
    afind? (mergeStep c p).journal_categories k = afind? c.journal_categories k ∧
    afind? (mergeStep c p).journal_types k = afind? c.journal_types k ∧
    afind? (mergeStep c p).journal_levels k = afind? c.journal_levels k := by
  by_cases h : acontains c.journal_categories p.2
  · simp [mergeStep, h, hk]
  · have hne : k ≠ p.2 := fun he => h (he ▸ hk)
    have hf : acontains c.journal_categories p.2 = false := by simpa using h
    have hcat : afind? (mergeStep c p).journal_categories k = afind? c.journal_categories k := by
      simp [mergeStep, hf, afind?_aset_ne _ _ _ _ hne]
    have hty : afind? (mergeStep c p).journal_types k = afind? c.journal_types k := by
      simp [mergeStep, hf, afind?_aset_ne _ _ _ _ hne]
    have hlv : afind? (mergeStep c p).journal_levels k = afind? c.journal_levels k := by
      simp [mergeStep, hf, afind?_aset_ne _ _ _ _ hne]
    refine ⟨?_, hcat, hty, hlv⟩
    unfold acontains
    rw [hcat]
    exact hk

theorem mergeStep_fns_preserve (c : Catalog) (p : String × String) (s : String)
    (hs : acontains c.journal_fullnames s = true) :
    acontains (mergeStep c p).journal_fullnames s = true ∧
    afind? (mergeStep c p).journal_fullnames s = afind? c.journal_fullnames s := by
  by_cases h : acontains c.journal_categories p.2
  · simp [mergeStep, h, hs]
  · have hf : acontains c.journal_categories p.2 = false := by simpa using h
    by_cases h2 : acontains c.journal_fullnames p.1
    · simp [mergeStep, hf, h2, hs]
    · have hne : s ≠ p.1 := fun he => h2 (he ▸ hs)
      have hf2 : acontains c.journal_fullnames p.1 = false := by simpa using h2
      have hfn : afind? (mergeStep c p).journal_fullnames s = afind? c.journal_fullnames s := by
        simp [mergeStep, hf, hf2, afind?_aset_ne _ _ _ _ hne]
      refine ⟨?_, hfn⟩
      unfold acontains
      rw [hfn]
      exact hs

theorem mergeFold_preserve (ps : List (String × String)) (c : Catalog) (k : String)
    (hk : acontains c.journal_categories k = true) :
    acontains (ps.foldl mergeStep c).journal_categories k = true ∧
    afind? (ps.foldl mergeStep c).journal_categories k = afind? c.journal_categories k ∧
    afind? (ps.foldl mergeStep c).journal_types k = afind? c.journal_types k ∧
    afind? (ps.foldl mergeStep c).journal_levels k = afind? c.journal_levels k := by
  induction ps generalizing c with
  | nil => exact ⟨hk, rfl, rfl, rfl⟩
  | cons p rest ih =>
    obtain ⟨h1, h2, h3, h4⟩ := mergeStep_preserve c p k hk
    obtain ⟨g1, g2, g3, g4⟩ := ih (mergeStep c p) h1
    exact ⟨g1, g2.trans h2, g3.trans h3, g4.trans h4⟩

theorem mergeFold_fns_preserve (ps : List (String × String)) (c : Catalog) (s : String)
    (hs : acontains c.journal_fullnames s = true) :
    acontains (ps.foldl mergeStep c).journal_fullnames s = true ∧
    afind? (ps.foldl mergeStep c).journal_fullnames s = afind? c.journal_fullnames s := by
  induction ps generalizing c with
  | nil => exact ⟨hs, rfl⟩
  | cons p rest ih =>
    obtain ⟨h1, h2⟩ := mergeStep_fns_preserve c p s hs
    obtain ⟨g1, g2⟩ := ih (mergeStep c p) h1
    exact ⟨g1, g2.trans h2⟩

theorem mergeStep_adds (c : Catalog) (p : String × String)
    (hf : acontains c.journal_categories p.2 = false) :
    acontains (mergeStep c p).journal_categories p.2 = true ∧
    afind? (mergeStep c p).journal_types p.2 =
      some ((afind? default_conference_types p.2).getD "Conference") ∧
    afind? (mergeStep c p).journal_levels p.2 =
      some ((afind? default_conference_levels p.2).getD "") ∧
    (acontains c.journal_fullnames p.1 = false →
      acontains (mergeStep c p).journal_fullnames p.1 = true ∧
      afind? (mergeStep c p).journal_fullnames p.1 = some p.2) := by
  have hf2 : (afind? c.journal_categories p.2).isSome = false := hf
  refine ⟨?_, ?_, ?_, fun h2 => ?_⟩
  · simp [mergeStep, acontains, hf2, afind?_aset_self]
  · simp [mergeStep, acontains, hf2, afind?_aset_self]
  · simp [mergeStep, acontains, hf2, afind?_aset_self]
  · have h2f : (afind? c.journal_fullnames p.1).isSome = false := h2
    constructor <;> simp [mergeStep, acontains, hf2, h2f, afind?_aset_self]

theorem acontains_mergeStep_ne (c : Catalog) (p : String × String) (f : String)
    (hne : f ≠ p.2) (h : acontains c.journal_categories f = false) :
    acontains (mergeStep c p).journal_categories f = false := by
  by_cases hg : acontains c.journal_categories p.2
  · simp [mergeStep, hg, h]
  · have hgf : acontains c.journal_categories p.2 = false := by simpa using hg
    simp [mergeStep, hgf, acontains_aset, hne, h]

theorem acontains_mergeStep_fns_ne (c : Catalog) (p : String × String) (a : String)
    (hne : a ≠ p.1) (h : acontains c.journal_fullnames a = false) :
    acontains (mergeStep c p).journal_fullnames a = false := by
  by_cases hg : acontains c.journal_categories p.2
  · simp [mergeStep, hg, h]
  · have hgf : acontains c.journal_categories p.2 = false := by simpa using hg
    by_cases h2 : acontains c.journal_fullnames p.1
    · simp [mergeStep, hgf, h2, h]
    · have h2f : acontains c.journal_fullnames p.1 = false := by simpa using h2
      simp [mergeStep, hgf, h2f, acontains_aset, hne, h]

theorem mergeFold_adds (ps : List (String × String)) : ∀ (c : Catalog) (a f : String),
    (ps.map Prod.snd).Nodup → (ps.map Prod.fst).Nodup → (a, f) ∈ ps →
    acontains c.journal_categories f = false →
    afind? (ps.foldl mergeStep c).journal_types f =
      some ((afind? default_conference_types f).getD "Conference") ∧
    afind? (ps.foldl mergeStep c).journal_levels f =
      some ((afind? default_conference_levels f).getD "") ∧
    (acontains c.journal_fullnames a = false →
      afind? (ps.foldl mergeStep c).journal_fullnames a = some f) := by
  induction ps with
  | nil =>
    intro c a f _ _ hmem _
    simp at hmem
  | cons p rest ih =>
    intro c a f hnd2 hnd1 hmem hf
    rw [List.foldl_cons]
    rw [List.map_cons] at hnd2 hnd1
    rcases List.mem_cons.mp hmem with heq | htail
    · subst heq
      obtain ⟨h1, h2, h3, h4⟩ := mergeStep_adds c (a, f) hf
      have pres := mergeFold_preserve rest (mergeStep c (a, f)) f h1
      refine ⟨pres.2.2.1.trans h2, pres.2.2.2.trans h3, fun hfn => ?_⟩
      obtain ⟨h5, h6⟩ := h4 hfn
      have presf := mergeFold_fns_preserve rest (mergeStep c (a, f)) a h5
      exact presf.2.trans h6
    · have hfne : f ≠ p.2 := by
        intro he
        have hm : f ∈ rest.map Prod.snd := List.mem_map_of_mem Prod.snd htail
        exact (List.nodup_cons.mp hnd2).1 (he ▸ hm)
      have hane : a ≠ p.1 := by
        intro he
        have hm : a ∈ rest.map Prod.fst := List.mem_map_of_mem Prod.fst htail
        exact (List.nodup_cons.mp hnd1).1 (he ▸ hm)
      have hf2 := acontains_mergeStep_ne c p f hfne hf
      have ihres := ih (mergeStep c p) a f (List.nodup_cons.mp hnd2).2
        (List.nodup_cons.mp hnd1).2 htail hf2
      exact ⟨ihres.1, ihres.2.1,
        fun hfn => ihres.2.2 (acontains_mergeStep_fns_ne c p a hane hfn)⟩

theorem static_nodup_snd : (CONFERENCE_MAPPINGS.map Prod.snd).Nodup := by decide

theorem static_nodup_fst : (CONFERENCE_MAPPINGS.map Prod.fst).Nodup := by decide

theorem static_defaults :
    ∀ p ∈ CONFERENCE_MAPPINGS,
      (afind? default_conference_types p.2).getD "Conference" = "Conference" ∧
      (afind? default_conference_levels p.2).getD "" = levelFor p.2 := by decide

theorem resolveRow_none_of_no_comments (cat : Catalog) (row : List String)
    (h : listContains (row.getD 2 "").data "Comments".data = false) :
    resolveRow cat row = none := by
  simp only [resolveRow, h]
  rfl

/-- C1: for an eligible paper row, resolution applies the three tiers in
strict order and stops at the first success: when any full venue name in
the catalog passes the exact-match test, Tier 1 yields the first such name
in catalog insertion order and the result is that venue with match type
`Exact Full Name` (the spec's `ExactFullName`), independently of Tiers 2
and 3; Tier 2 determines the result only when Tier 1 produced nothing, and
Tier 3 only when both earlier tiers produced nothing. -/
theorem tiers_apply_in_order (cat : Catalog) (row : List String)
    (helig : listContains (row.getD 2 "").data "Comments".data = true) :
    ((cat.journal_categories.map Prod.fst).any
        (fun full_name => is_exact_match (row.getD 2 "") full_name) = true →
      ∃ full_name, tier1 cat (row.getD 2 "") = some full_name) ∧
    (∀ full_name, tier1 cat (row.getD 2 "") = some full_name →
      is_exact_match (row.getD 2 "") full_name = true ∧
      resolveRow cat row = some ⟨row.getD 0 "", row.getD 2 "", row.getD 3 "", full_name,
        (afind? cat.journal_types full_name).getD "Unknown",
        (afind? cat.journal_levels full_name).getD "", "Exact Full Name"⟩) ∧
    (tier1 cat (row.getD 2 "") = none →
      ∀ full_name mt, tier2 cat (row.getD 2 "") = some (full_name, mt) →
      resolveRow cat row = some ⟨row.getD 0 "", row.getD 2 "", row.getD 3 "", full_name,
        (afind? cat.journal_types full_name).getD "Unknown",
        (afind? cat.journal_levels full_name).getD "", mt⟩) ∧
    (tier1 cat (row.getD 2 "") = none → tier2 cat (row.getD 2 "") = none →
      resolveRow cat row = (tier3 (row.getD 2 "")).map (fun r =>
        ⟨row.getD 0 "", row.getD 2 "", row.getD 3 "", r.1,
         (afind? cat.journal_types r.1).getD "Unknown",
         (afind? cat.journal_levels r.1).getD "", r.2⟩)) := by
  refine ⟨?_, ?_, ?_, ?_⟩
  · intro hany
    exact find?_isSome_of_any hany
  · intro fn h1
    refine ⟨List.find?_some h1, ?_⟩
    simp only [resolveRow, helig, h1, eq_self_iff_true, if_true]
  · intro h1 fn mt h2
    simp only [resolveRow, helig, h1, h2, eq_self_iff_true, if_true]
  · intro h1 h2
    cases h3 : tier3 (row.getD 2 "") with
    | none =>
      simp only [resolveRow, helig, h1, h2, h3, eq_self_iff_true, if_true]
      rfl
    | some r =>
      obtain ⟨pub, mt⟩ := r
      simp only [resolveRow, helig, h1, h2, h3, eq_self_iff_true, if_true]
      rfl

/-- Witness for C1 at a concrete eligible row whose comments text contains
the full venue name `International Conference on Machine Learning`; the
resolution result carries match type `Exact Full Name`. -/
theorem tiers_apply_in_order_witness :
    listContains
        ((["T", "x", "Comments: Accepted at the International Conference on Machine Learning",
          "u"] : List String).getD 2 "").data "Comments".data = true ∧
    resolveRow (buildCatalog [])
        ["T", "x", "Comments: Accepted at the International Conference on Machine Learning", "u"] =
      some ⟨"T", "Comments: Accepted at the International Conference on Machine Learning", "u",
        "International Conference on Machine Learning",
        (afind? (buildCatalog []).journal_types "International Conference on Machine Learning").getD
          "Unknown",
        (afind? (buildCatalog []).journal_levels "International Conference on Machine Learning").getD
          "", "Exact Full Name"⟩ :=
  ⟨by decide,
    ((tiers_apply_in_order (buildCatalog [])
        ["T", "x", "Comments: Accepted at the International Conference on Machine Learning", "u"]
        (by decide)).2.1 "International Conference on Machine Learning" (by rfl)).2⟩

/-- C2: a paper row whose third cell lacks the literal substring
`"Comments"` produces no match record at all, whatever the catalog
contains. -/
theorem no_comments_no_match (cat : Catalog) (row : List String)
    (h : listContains (row.getD 2 "").data "Comments".data = false) :
    resolveRow cat row = none :=
  resolveRow_none_of_no_comments cat row h

/-- Witness for C2 on a concrete row whose comments cell is
`"Under review"`. -/
theorem no_comments_no_match_witness :
    listContains ((["T", "x", "Under review", "u"] : List String).getD 2 "").data
        "Comments".data = false ∧
    resolveRow (buildCatalog []) ["T", "x", "Under review", "u"] = none :=
  ⟨by decide, no_comments_no_match (buildCatalog []) ["T", "x", "Under review", "u"] (by decide)⟩

/-- C3: the Tier-1 exact-match test for the special venue `Neural Networks`
rejects every text in which the name only occurs immediately after one of
the fragments `Conference on`, `Journal of`, `Symposium on`, `Workshop on`
(every standalone occurrence triggers the prefix guard), while a text where
the name stands alone, such as `Accepted to Neural Networks journal`, is
accepted — and an eligible paper row with that comments text resolves to
venue `Neural Networks` with match type `Exact Full Name`. -/
theorem special_venue_guard :
    (∀ text : String, allSpecialOccurrencesPreceded text "Neural Networks" = true →
      is_exact_match text "Neural Networks" = false) ∧
    is_exact_match "Accepted to Neural Networks journal" "Neural Networks" = true ∧
    resolveRow
        (buildCatalog [⟨"h", "h", none, none⟩, ⟨"NN", "Neural Networks", some "Journal", some "A"⟩])
        ["T", "c", "Comments: Accepted to Neural Networks journal", "u"] =
      some ⟨"T", "Comments: Accepted to Neural Networks journal", "u", "Neural Networks",
        "Journal", "A", "Exact Full Name"⟩ := by
  refine ⟨?_, by decide, by rfl⟩
  intro text h
  have hc : special_journals.contains "Neural Networks" = true := by decide
  cases hss : specialSearch text.data "Neural Networks".data with
  | none => simp only [is_exact_match, hc, eq_self_iff_true, if_true, hss]
  | some start =>
    have hok : specialOkAt text.data "Neural Networks".data start = true := List.find?_some hss
    have hmem : start ∈ List.range (text.data.length + 1) := List.mem_of_find?_eq_some hss
    have hpre : specialPreceded text.data start = true := by
      have hall := List.all_eq_true.mp h start hmem
      simpa [hok] using hall
    simp only [is_exact_match, hc, eq_self_iff_true, if_true, hss, hpre]

/-- Witness for C3: in `International Conference on Neural Networks` every
occurrence of the special venue name is phrase-preceded, and the Tier-1
test indeed rejects it. -/
theorem special_venue_guard_witness :
    allSpecialOccurrencesPreceded "International Conference on Neural Networks"
        "Neural Networks" = true ∧
    is_exact_match "International Conference on Neural Networks" "Neural Networks" = false :=
  ⟨by decide, special_venue_guard.1 "International Conference on Neural Networks" (by decide)⟩

/-- C4: scoring never changes any field of the match record other than the
keyword-hit cell; when the venue has no keyword entry the hits are empty,
otherwise the hits are exactly the venue's keywords that occur in the title
as a standalone word case-insensitively, in keyword-list order; in
particular venue `International Joint Conference on Neural Networks` with
keyword list `["ijcnn"]` and title `IJCNN: new results` hits `["ijcnn"]`.
Scoring is a total function, so it never raises. -/
theorem keyword_scoring (keywords : List (String × List String)) (r : MatchRec) :
    (scoreRec keywords r).toMatchRec = r ∧
    (afind? keywords r.Publication = none → keywordHits keywords r.Publication r.Title = []) ∧
    (∀ keyword_list, afind? keywords r.Publication = some keyword_list →
      keywordHits keywords r.Publication r.Title =
        keyword_list.filter (fun kw => wbTestCI r.Title.data kw.data)) ∧
    keywordHits [("International Joint Conference on Neural Networks", ["ijcnn"])]
      "International Joint Conference on Neural Networks" "IJCNN: new results" = ["ijcnn"] := by
  refine ⟨rfl, ?_, ?_, by decide⟩
  · intro h
    simp only [keywordHits, h]
  · intro l h
    simp only [keywordHits, h]

/-- Witness for C4: the missing-venue case yields no hits, and the
present-venue case filters the keyword list against the title. -/
theorem keyword_scoring_witness :
    keywordHits [] "X" "t" = [] ∧
    keywordHits [("A", ["x", "ijcnn"])] "A" "ijcnn results" =
      ["x", "ijcnn"].filter (fun kw => wbTestCI "ijcnn results".data kw.data) :=
  ⟨(keyword_scoring [] ⟨"t", "s", "u", "X", "ty", "lv", "mt"⟩).2.1 rfl,
    (keyword_scoring [("A", ["x", "ijcnn"])]
      ⟨"ijcnn results", "s", "u", "A", "ty", "lv", "mt"⟩).2.2.1 ["x", "ijcnn"] rfl⟩

/-- C5 counterexample: a paper record whose comments text is exactly
`To appear at CVPR2025` does NOT resolve at all — the text lacks the
literal eligibility marker `Comments`, so resolution skips the row — so
it does not resolve to the CVPR venue as claimed. -/
theorem cvpr_no_comments_counterexample :
    resolveRow (buildCatalog []) ["Paper", "x", "To appear at CVPR2025", "url"] = none := by
  rfl

/-- C5 amended: once the comments text carries the eligibility marker
(`Comments: To appear at CVPR2025`), a paper record resolves against the
catalog built from the static abbreviation table to venue
`IEEE/CVF Conference on Computer Vision and Pattern Recognition` with
level `A` and match type `Short Name with Year` (the spec's
`ShortNameWithYear`). -/
theorem cvpr_short_name_with_year :
    resolveRow (buildCatalog []) ["Paper", "x", "Comments: To appear at CVPR2025", "url"] =
      some ⟨"Paper", "Comments: To appear at CVPR2025", "url",
        "IEEE/CVF Conference on Computer Vision and Pattern Recognition", "Conference", "A",
        "Short Name with Year"⟩ := by
  rfl

/-- C6 counterexample: a reference row whose `Level` cell is `" A"` (a
space before the letter) is recorded in the catalog with level `"A"` — the
code strips the cell before the `A`/`B`/`C` test — although the raw cell
value is not one of `A`, `B`, `C` and the recorded value is neither the
raw value nor `""`, contradicting the claim as stated. -/
theorem level_strip_counterexample :
    afind?
        (buildCatalog
          [⟨"h", "h", none, none⟩, ⟨"NN", "Neural Networks J", none, some " A"⟩]).journal_levels
        "Neural Networks J" = some "A" ∧
    ¬(" A" = "A" ∨ " A" = "B" ∨ " A" = "C") ∧ ("A" : String) ≠ " A" ∧ ("A" : String) ≠ "" := by
  refine ⟨by rfl, by decide, by decide, by decide⟩

/-- C6 amended: for every reference row past the skipped first row, the
level recorded in the catalog is the row's whitespace-stripped level value
exactly when that stripped value is one of `A`, `B`, `C` (case-sensitive),
and `""` otherwise (in particular `S` or `1` yield `""`); an absent level
also yields `""`, and an absent type field yields type `Unknown`. -/
theorem level_normalized (hdr r : RefRow) :
    (∀ lv, r.rowLevel = some lv →
      afind? (buildCatalog [hdr, r]).journal_levels (pyStrip r.fullName) =
        some (if ["A", "B", "C"].contains (pyStrip lv) then pyStrip lv else "")) ∧
    (r.rowLevel = none →
      afind? (buildCatalog [hdr, r]).journal_levels (pyStrip r.fullName) = some "") ∧
    (r.rowType = none →
      afind? (buildCatalog [hdr, r]).journal_types (pyStrip r.fullName) = some "Unknown") := by
  have hbase : ingestRows [hdr, r] = ingestRow emptyCatalog r := rfl
  have hcont :
      acontains (ingestRows [hdr, r]).journal_categories (pyStrip r.fullName) = true := by
    rw [hbase]
    simp [ingestRow, emptyCatalog, acontains, afind?_aset_self]
  have pres :=
    mergeFold_preserve CONFERENCE_MAPPINGS (ingestRows [hdr, r]) (pyStrip r.fullName) hcont
  have hlv :
      afind? (buildCatalog [hdr, r]).journal_levels (pyStrip r.fullName) =
        afind? (ingestRow emptyCatalog r).journal_levels (pyStrip r.fullName) := by
    rw [← hbase]
    exact pres.2.2.2
  have hty :
      afind? (buildCatalog [hdr, r]).journal_types (pyStrip r.fullName) =
        afind? (ingestRow emptyCatalog r).journal_types (pyStrip r.fullName) := by
    rw [← hbase]
    exact pres.2.2.1
  refine ⟨?_, ?_, ?_⟩
  · intro lv hl
    rw [hlv]
    simp [ingestRow, emptyCatalog, hl, afind?_aset_self]
  · intro hl
    rw [hlv]
    simp [ingestRow, emptyCatalog, hl, afind?_aset_self]
  · intro ht
    rw [hty]
    simp [ingestRow, emptyCatalog, ht, afind?_aset_self]

/-- Witness for C6 amended: a row with level `S` is recorded with level
`""`, and its absent type is recorded as `Unknown`. -/
theorem level_normalized_witness :
    afind?
        (buildCatalog [⟨"h", "h", none, none⟩, ⟨"J", "Full J", none, some "S"⟩]).journal_levels
        "Full J" = some "" ∧
    afind?
        (buildCatalog [⟨"h", "h", none, none⟩, ⟨"J", "Full J", none, some "S"⟩]).journal_types
        "Full J" = some "Unknown" := by
  have h := level_normalized ⟨"h", "h", none, none⟩ ⟨"J", "Full J", none, some "S"⟩
  have h1 := h.1 "S" rfl
  have h2 := h.2.2 rfl
  constructor
  · rw [show pyStrip "Full J" = "Full J" from rfl] at h1
    rw [h1]
    rfl
  · rw [show pyStrip "Full J" = "Full J" from rfl] at h2
    exact h2

/-- C7: merging the static abbreviation table leaves every entry the
reference rows created untouched (full-name categories, types, levels and
short-name mappings), and a static pair whose full name is not yet a
catalog key is added with type `Conference` and its statically assigned CCF
level (`A`, `B`, `C` for the named venues, `""` otherwise), its
abbreviation being added only when no reference row already mapped it — in
which case it maps to the pair's full name. -/
theorem static_merge_invariant (rows : List RefRow) (a f : String)
    (hmem : (a, f) ∈ CONFERENCE_MAPPINGS) :
    (∀ k, acontains (ingestRows rows).journal_categories k = true →
      afind? (buildCatalog rows).journal_categories k =
        afind? (ingestRows rows).journal_categories k ∧
      afind? (buildCatalog rows).journal_types k = afind? (ingestRows rows).journal_types k ∧
      afind? (buildCatalog rows).journal_levels k = afind? (ingestRows rows).journal_levels k) ∧
    (∀ s, acontains (ingestRows rows).journal_fullnames s = true →
      afind? (buildCatalog rows).journal_fullnames s =
        afind? (ingestRows rows).journal_fullnames s) ∧
    (acontains (ingestRows rows).journal_categories f = false →
      afind? (buildCatalog rows).journal_types f = some "Conference" ∧
      afind? (buildCatalog rows).journal_levels f = some (levelFor f) ∧
      (acontains (ingestRows rows).journal_fullnames a = false →
        afind? (buildCatalog rows).journal_fullnames a = some f)) := by
  unfold buildCatalog mergeStatic
  refine ⟨?_, ?_, ?_⟩
  · intro k hk
    exact (mergeFold_preserve CONFERENCE_MAPPINGS (ingestRows rows) k hk).2
  · intro s hs
    exact (mergeFold_fns_preserve CONFERENCE_MAPPINGS (ingestRows rows) s hs).2
  · intro hf
    have hadd := mergeFold_adds CONFERENCE_MAPPINGS (ingestRows rows) a f
      static_nodup_snd static_nodup_fst hmem hf
    have hdef := static_defaults (a, f) hmem
    refine ⟨?_, ?_, hadd.2.2⟩
    · rw [hadd.1, hdef.1]
    · rw [hadd.2.1, hdef.2]

/-- Witness for C7 at a catalog with one real reference row (`My Venue`)
and the static `CVPR` pair: the row's level survives the merge unchanged,
and `CVPR` is added with its static level and short-name mapping. -/
theorem static_merge_invariant_witness :
    afind?
        (buildCatalog
          [⟨"h", "h", none, none⟩,
            ⟨"XX", "My Venue", some "Journal", some "B"⟩]).journal_levels "My Venue" =
      afind?
        (ingestRows
          [⟨"h", "h", none, none⟩,
            ⟨"XX", "My Venue", some "Journal", some "B"⟩]).journal_levels "My Venue" ∧
    afind?
        (buildCatalog
          [⟨"h", "h", none, none⟩,
            ⟨"XX", "My Venue", some "Journal", some "B"⟩]).journal_levels
        "IEEE/CVF Conference on Computer Vision and Pattern Recognition" =
      some (levelFor "IEEE/CVF Conference on Computer Vision and Pattern Recognition") ∧
    afind?
        (buildCatalog
          [⟨"h", "h", none, none⟩,
            ⟨"XX", "My Venue", some "Journal", some "B"⟩]).journal_fullnames "CVPR" =
      some "IEEE/CVF Conference on Computer Vision and Pattern Recognition" := by
  have h := static_merge_invariant
    [⟨"h", "h", none, none⟩, ⟨"XX", "My Venue", some "Journal", some "B"⟩]
    "CVPR" "IEEE/CVF Conference on Computer Vision and Pattern Recognition" (by decide)
  exact ⟨(h.1 "My Venue" (by decide)).2.2, (h.2.2 (by decide)).2.1,
    (h.2.2 (by decide)).2.2 (by decide)⟩

/-- C8: per-record resolution and scoring are total functions — every paper
row yields exactly one match record or nothing (`Option`), the records of
`first_analysis` are exactly the successfully resolved rows, and scoring
yields one enriched record per input record, never altering the underlying
match record; no exception path exists. -/
theorem per_record_totality (cat : Catalog) (row : List String)
    (df : List (List String)) (rows : List RefRow)
    (keywords : List (String × List String)) (r : MatchRec) :
    ((∃ m, resolveRow cat row = some m) ∨ resolveRow cat row = none) ∧
    (∀ m, m ∈ first_analysis df rows ↔
      ∃ prow ∈ df, resolveRow (buildCatalog rows) prow = some m) ∧
    (second_analysis keywords (first_analysis df rows)).length =
      (first_analysis df rows).length ∧
    (scoreRec keywords r).toMatchRec = r := by
  refine ⟨?_, ?_, ?_, rfl⟩
  · cases h : resolveRow cat row with
    | some m => exact Or.inl ⟨m, rfl⟩
    | none => exact Or.inr rfl
  · intro m
    simp [first_analysis, List.mem_filterMap]
  · simp [second_analysis]

/-- C9: Tier 2 is case-sensitive — it can only succeed when some
all-uppercase short name of the catalog occurs in the comments text as a
substring in exactly its catalog casing, and the resulting match type is
`Exact Short Name` or `Short Name with Year`; a text whose only occurrence
is lower-case, such as `Comments: cvpr 2025`, never matches at Tier 2. -/
theorem tier2_requires_exact_case :
    (∀ (cat : Catalog) (subject full_name mt : String),
      tier2 cat subject = some (full_name, mt) →
      ∃ short_name, (short_name, full_name) ∈ cat.journal_fullnames ∧
        pyIsUpper short_name = true ∧
        listContains subject.data short_name.data = true ∧
        (mt = "Exact Short Name" ∨ mt = "Short Name with Year")) ∧
    tier2 (buildCatalog []) "Comments: cvpr 2025" = none := by
  refine ⟨?_, by rfl⟩
  intro cat subject fn mt h
  obtain ⟨p, hp, hfp⟩ := exists_of_findSome?_eq_some h
  split_ifs at hfp with hcond h1 h2
  · rw [Bool.and_eq_true] at hcond
    obtain ⟨hup, hctn⟩ := hcond
    simp only [Option.some.injEq, Prod.mk.injEq] at hfp
    obtain ⟨he1, he2⟩ := hfp
    subst he1
    subst he2
    exact ⟨p.1, by simpa using hp, hup, hctn, Or.inl rfl⟩
  · rw [Bool.and_eq_true] at hcond
    obtain ⟨hup, hctn⟩ := hcond
    simp only [Option.some.injEq, Prod.mk.injEq] at hfp
    obtain ⟨he1, he2⟩ := hfp
    subst he1
    subst he2
    exact ⟨p.1, by simpa using hp, hup, hctn, Or.inr rfl⟩

/-- Witness for C9: Tier 2 succeeds on `Comments: CVPR 2025` (exact
casing), with `CVPR` occurring verbatim in the text. -/
theorem tier2_requires_exact_case_witness :
    ∃ short_name,
      (short_name, "IEEE/CVF Conference on Computer Vision and Pattern Recognition") ∈
        (buildCatalog []).journal_fullnames ∧
      pyIsUpper short_name = true ∧
      listContains "Comments: CVPR 2025".data short_name.data = true ∧
      (("Exact Short Name" : String) = "Exact Short Name" ∨
        ("Exact Short Name" : String) = "Short Name with Year") :=
  tier2_requires_exact_case.1 (buildCatalog []) "Comments: CVPR 2025"
    "IEEE/CVF Conference on Computer Vision and Pattern Recognition" "Exact Short Name" (by rfl)

/-- C10: missing positional cells default to the empty string — a row with
fewer than 3 cells has an empty comments field and is always excluded (the
eligibility marker cannot occur in `""`), a row with fewer than 4 cells has
an empty URL, and a row with no cells has an empty title; resolution
completes (totally) in every such case. -/
theorem missing_cells_default (cat : Catalog) (row : List String) :
    (row.length < 3 → row.getD 2 "" = "" ∧ resolveRow cat row = none) ∧
    (row.length < 4 → row.getD 3 "" = "") ∧
    (row.length = 0 → row.getD 0 "" = "") := by
  refine ⟨?_, ?_, ?_⟩
  · intro h
    have h2 : row.getD 2 "" = "" := List.getD_eq_default _ _ (by omega)
    refine ⟨h2, resolveRow_none_of_no_comments cat row ?_⟩
    rw [h2]
    decide
  · intro h
    exact List.getD_eq_default _ _ (by omega)
  · intro h
    exact List.getD_eq_default _ _ (by omega)

/-- Witness for C10 on a one-cell row: comments and URL default to `""` and
the row is excluded. -/
theorem missing_cells_default_witness :
    (["OnlyTitle"] : List String).getD 2 "" = "" ∧
    resolveRow (buildCatalog []) ["OnlyTitle"] = none ∧
    (["OnlyTitle"] : List String).getD 3 "" = "" :=
  ⟨((missing_cells_default (buildCatalog []) ["OnlyTitle"]).1 (by decide)).1,
    ((missing_cells_default (buildCatalog []) ["OnlyTitle"]).1 (by decide)).2,
    (missing_cells_default (buildCatalog []) ["OnlyTitle"]).2.1 (by decide)⟩
